import Mathlib

/-!
Verification of the stock-profit AWS Lambda (main source file stockprofit.go).

The Go program is shallowly embedded: the pure data flow of each Go function is
translated to a Lean function, and every interaction with the outside world
(HTTP fetch, S3 download and upload, SES mail) is represented by an explicit
outcome value passed in.  Go float64 arithmetic on prices is modelled with the
rationals; Go byte slices holding ASCII text are modelled as lists of
characters.
-/

namespace StockProfit

/-- Model of the Go struct Ticker (stockprofit.go lines 27-32): one tracked
position with symbol, purchase bid, current value and quantity held.  The
float64 fields are modelled as rationals and the int field as an integer. -/
structure Ticker where
  symble : String
  bid : ℚ
  value : ℚ
  hold : Int
deriving DecidableEq, Repr

/-- Model of the Go struct Result (stockprofit.go lines 34-37): the batch that
is serialized to JSON, uploaded to S3 and mailed. -/
structure Result where
  createdAt : String
  body : List Ticker
deriving DecidableEq, Repr

/-- The zero value of the Ticker struct, which Go writes as Ticker\x7b\x7d:
every field at its zero value. -/
def zeroTicker : Ticker := ⟨"", 0, 0, 0⟩

/-- Value of a list of ASCII digit characters, as folded up by a decimal
parser: the numeric value of the digit string. -/
def digitsToNat (l : List Char) : Nat :=
  l.foldl (fun n c => 10 * n + (c.toNat - 48)) 0

/-- Model of strconv.ParseFloat on its plain decimal fragment: an optional
sign, then digits with at most one decimal point and at least one digit in
total.  Exponent, hexadecimal, infinity and NaN forms of Go ParseFloat are not
used by any input this development reasons about and are omitted; on all other
inputs the function returns none exactly where Go returns a syntax error. -/
def parseUnsigned (s : List Char) : Option ℚ :=
  match s.splitOn '.' with
  | [i] =>
    if i ≠ [] ∧ i.all Char.isDigit then some (digitsToNat i : ℚ) else none
  | [i, fr] =>
    if (i ++ fr) ≠ [] ∧ (i ++ fr).all Char.isDigit then
      some ((digitsToNat i : ℚ) + (digitsToNat fr : ℚ) / (10 ^ fr.length : ℚ))
    else none
  | _ => none

/-- Model of strconv.ParseFloat (see parseUnsigned): handles the optional
leading sign. -/
def parseFloat (s : List Char) : Option ℚ :=
  match s with
  | [] => none
  | c :: rest =>
    if c = '+' then parseUnsigned rest
    else if c = '-' then (parseUnsigned rest).map (fun q => -q)
    else parseUnsigned (c :: rest)

/-- Model of strconv.Atoi: an optional sign followed by a nonempty run of
digits; anything else is a syntax error (none).  The 64-bit range check of Go
Atoi is omitted, as no input considered here approaches it. -/
def atoi (s : List Char) : Option Int :=
  match s with
  | [] => none
  | c :: rest =>
    if c = '+' then
      if rest ≠ [] ∧ rest.all Char.isDigit then some (digitsToNat rest : Int) else none
    else if c = '-' then
      if rest ≠ [] ∧ rest.all Char.isDigit then some (-(digitsToNat rest : Int)) else none
    else
      if (c :: rest).all Char.isDigit then some (digitsToNat (c :: rest) : Int) else none

/-- Model of the per-line body of the loop in GetTickerSymbles (stockprofit.go
lines 123-138): split the scanned token on commas; when there are exactly four
fields build one Ticker, parsing the numeric fields and discarding their parse
errors (so a failed parse leaves the Go zero value 0); any other field count
yields nothing. -/
def parseTickerLine (token : List Char) : List Ticker :=
  match token.splitOn ',' with
  | [s, b, v, hd] =>
    [⟨String.mk s, (parseFloat b).getD 0, (parseFloat v).getD 0, (atoi hd).getD 0⟩]
  | _ => []

/-- Model of dropCR inside bufio.ScanLines: remove one trailing carriage
return from the scanned token. -/
def dropCR (l : List Char) : List Char :=
  if l.getLast? = some '\r' then l.dropLast else l

/-- Model of bufio.ScanLines(data, false), the call made by GetTickerSymbles
(stockprofit.go line 115) with atEOF fixed to false: when the data contains a
newline, advance past it and return the line before it without a trailing
carriage return; otherwise report advance 0 (request more data) and no token.
With atEOF false the function never returns an error, so the error result is
dropped.  Bytes are modelled as characters; the data handled here is ASCII. -/
def scanLines (data : List Char) : Nat × List Char :=
  match data.findIdx? (· == '\n') with
  | some i => (i + 1, dropCR (data.take i))
  | none => (0, [])

/-- Model of GetTickerSymbles (stockprofit.go lines 111-145): repeatedly scan
one line; stop when the scanner reports advance 0; parse each scanned token
with parseTickerLine, accumulating the tickers in scan order; then drop the
consumed bytes and continue.  The guard advance <= len(buf) of the source is
always true (the advance points just past a newline inside buf), so the drop
models it exactly. -/
def getTickerSymbles (buf : List Char) : List Ticker :=
  if h : (scanLines buf).1 = 0 then []
  else parseTickerLine (scanLines buf).2 ++ getTickerSymbles (buf.drop (scanLines buf).1)
termination_by buf.length
decreasing_by
  rcases hf : buf.findIdx? (· == '\n') with - | i
  · exact absurd (by simp [scanLines, hf]) h
  · have hb : buf ≠ [] := by
      rintro rfl
      simp [List.findIdx?] at hf
    have hpos : 0 < buf.length := List.length_pos.mpr hb
    have : (scanLines buf).1 = i + 1 := by simp [scanLines, hf]
    rw [List.length_drop, this]
    omega

/-- The literal part of the package-level compiled pattern of stockprofit.go
line 40: the anchor token of the regular expression, whose full form captures
one group of the shape digits, any character, digits right after this
anchor. -/
def anchor : List Char := ['t', 'r', 'e', 'n', 'd', '2', 'W', '1', '0', 'W', '9', 'M']

/-- Match a literal character sequence at the front of the input, returning
the remaining input on success. -/
def matchAnchor : List Char → List Char → Option (List Char)
  | [], l => some l
  | _ :: _, [] => none
  | a :: as, c :: cs => if c = a then matchAnchor as cs else none

/-- One attempt of the tail of the capture group: a single any character (the
unescaped dot of the pattern, which in Go does not match a newline) followed
by a nonempty maximal run of digits.  The argument a is the part of the first
digit run kept by the backtracking caller; on success the whole capture is
returned. -/
def tryDot (a rest : List Char) : Option (List Char) :=
  match rest with
  | [] => none
  | c :: r2 =>
    if c = '\n' then none
    else
      let d2 := r2.takeWhile Char.isDigit
      if d2 = [] then none else some (a ++ c :: d2)

/-- Backtracking over the length of the first digit run of the capture group,
longest first, as the leftmost-first greedy semantics of Go regexp prescribes:
d1 is the maximal digit run at the match point and r1 the input after it; the
counter is the run length still to be tried. -/
def matchNumAux (d1 r1 : List Char) : Nat → Option (List Char)
  | 0 => none
  | k + 1 =>
    match tryDot (d1.take (k + 1)) (d1.drop (k + 1) ++ r1) with
    | some cap => some cap
    | none => matchNumAux d1 r1 k

/-- Match the capture group of the pattern (digits, any character, digits) at
the front of the input, returning the captured text. -/
def matchNum (l : List Char) : Option (List Char) :=
  matchNumAux (l.takeWhile Char.isDigit) (l.dropWhile Char.isDigit)
    (l.takeWhile Char.isDigit).length

/-- Match the whole pattern at the front of the input: the anchor literal
followed by the capture group.  The full match consumes the anchor plus the
capture. -/
def matchAt (l : List Char) : Option (List Char) :=
  match matchAnchor anchor l with
  | none => none
  | some rest => matchNum rest

/-- Scan of FindAllStringSubmatch: walk the text left to right; at each
position not inside a previous match try the pattern; on a match emit the
submatch record (full match, then the capture group) and resume after the
match.  The Nat argument counts the positions still covered by the last match,
so that scanning resumes exactly at its end, as Go does for its nonempty,
non-overlapping matches. -/
def findAllAux : List Char → Nat → List (List (List Char))
  | [], _ => []
  | _ :: rest, k + 1 => findAllAux rest k
  | c :: rest, 0 =>
    match matchAt (c :: rest) with
    | some cap => [anchor ++ cap, cap] :: findAllAux rest (anchor.length + cap.length - 1)
    | none => findAllAux rest 0

/-- Model of r.FindAllStringSubmatch(text, -1) (stockprofit.go line 219) for
the compiled pattern: every match contributes the pair of its full text and
its one capture group, leftmost first. -/
def findAllSubmatch (l : List Char) : List (List (List Char)) := findAllAux l 0

/-- Outcome of the external world for one quote fetch of GetStockPrice: the
HTTP GET either fails, or returns a response with a status code and a body;
for a returned body, none stands for a goquery parse failure and some t for a
parsed document whose quote-header-info element has text t. -/
inductive FetchOutcome where
  | netError : FetchOutcome
  | response (statusCode : Nat) (headerText : Option (List Char)) : FetchOutcome
deriving DecidableEq

/-- Model of GetStockPrice (stockprofit.go lines 196-234).  The function
returns the message it sends on the done channel, or none when it sends
nothing: a network error, a non-200 status, a markup parse failure, or a float
parse failure each send the zero Ticker; when the match list is empty, or a
match has no second entry, the unguarded indexing result[0][1] of the source
panics and nothing is ever sent.  On success the input Ticker is sent with its
value field replaced by the parsed price.  The comma removal models
strings.ReplaceAll(text, comma, empty). -/
def getStockPrice (symbol : Ticker) (outcome : FetchOutcome) : Option Ticker :=
  match outcome with
  | .netError => some zeroTicker
  | .response code headerText =>
    if code ≠ 200 then some zeroTicker
    else
      match headerText with
      | none => some zeroTicker
      | some raw =>
        let text := raw.filter (fun c => c ≠ ',')
        match findAllSubmatch text with
        | [] => none
        | m :: _ =>
          match m[1]? with
          | none => none
          | some cap =>
            match parseFloat cap with
            | none => some zeroTicker
            | some f => some ⟨symbol.symble, symbol.bid, f, symbol.hold⟩

/-- Model of the fan-out/fan-in section of Handler (stockprofit.go lines
65-77).  One GetStockPrice goroutine is started per input Ticker and the loop
receives exactly as many channel messages as goroutines were started.  The
proposition holds of a batch exactly when the collection loop can terminate
with it: every goroutine must actually send a message (a goroutine that panics
sends nothing and the receive loop blocks forever), and the batch is the
multiset of sent messages in some arrival order. -/
def coordinatorCompletes (symbols : List Ticker) (fetch : Ticker → FetchOutcome)
    (batch : List Ticker) : Prop :=
  (∀ t ∈ symbols, (getStockPrice t (fetch t)).isSome) ∧
    List.Perm batch (symbols.map (fun t => getStockPrice t (fetch t))).reduceOption

/-- Model of the profit of one position as computed in the report loop of
SenderMail (stockprofit.go line 248): earn = (value - bid) * hold. -/
def earn (t : Ticker) : ℚ := (t.value - t.bid) * (t.hold : ℚ)

/-- Model of the running total of SenderMail (stockprofit.go lines 245-253):
the sum variable starts at zero and accumulates earn over the body in order. -/
def profitSum (body : List Ticker) : ℚ :=
  body.foldl (fun s t => s + earn t) 0

/-- JSON values, as far as encoding/json needs them for the Result struct:
strings, numbers, arrays and objects with ordered string keys. -/
inductive Json where
  | str : String → Json
  | num : ℚ → Json
  | arr : List Json → Json
  | obj : List (String × Json) → Json

/-- Model of json.Marshal on one Ticker: the struct tags of stockprofit.go
lines 27-32 name the keys, keeping the misspelled key symble. -/
def marshalTicker (t : Ticker) : Json :=
  Json.obj [("symble", Json.str t.symble), ("bid", Json.num t.bid),
    ("value", Json.num t.value), ("hold", Json.num (t.hold : ℚ))]

/-- Model of json.Marshal on the Result struct: the struct tags of
stockprofit.go lines 34-37 name the keys created_at and body. -/
def marshalResult (res : Result) : Json :=
  Json.obj [("created_at", Json.str res.createdAt),
    ("body", Json.arr (res.body.map marshalTicker))]

/-- Key list of a JSON object, used to state which keys a marshalled value
carries. -/
def objKeys : Json → List String
  | Json.obj fields => fields.map (fun p => p.1)
  | _ => []

/-- Field lookup in a JSON object, as json.Unmarshal resolves a struct tag
against the keys of the incoming object.  The case-folding fallback of Go is
not needed for the exactly-tagged data handled here. -/
def jsonLookup (fields : List (String × Json)) (k : String) : Option Json :=
  (fields.find? (fun p => p.1 == k)).map (fun p => p.2)

/-- Decode a looked-up field into a Go string: a missing key leaves the zero
value, a non-string value is an unmarshal type error. -/
def asString : Option Json → Option String
  | none => some ""
  | some (Json.str s) => some s
  | some _ => none

/-- Decode a looked-up field into a Go float64 (modelled rational): a missing
key leaves the zero value, a non-number value is an unmarshal type error. -/
def asQ : Option Json → Option ℚ
  | none => some 0
  | some (Json.num q) => some q
  | some _ => none

/-- Decode a looked-up field into a Go int: a missing key leaves the zero
value; a fractional number or a non-number value is an unmarshal error. -/
def asInt : Option Json → Option Int
  | none => some 0
  | some (Json.num q) => if q.den = 1 then some q.num else none
  | some _ => none

/-- Model of json.Unmarshal into one Ticker: each tagged field is looked up
and decoded at its type. -/
def unmarshalTicker : Json → Option Ticker
  | Json.obj fields => do
    let s ← asString (jsonLookup fields ("symble"))
    let b ← asQ (jsonLookup fields ("bid"))
    let v ← asQ (jsonLookup fields ("value"))
    let hd ← asInt (jsonLookup fields ("hold"))
    pure ⟨s, b, v, hd⟩
  | _ => none

/-- Model of json.Unmarshal into a slice of Ticker: decode the array elements
in order, failing if any element fails. -/
def unmarshalTickers : List Json → Option (List Ticker)
  | [] => some []
  | j :: js => do
    let t ← unmarshalTicker j
    let ts ← unmarshalTickers js
    pure (t :: ts)

/-- Model of json.Unmarshal into the Result struct: decode the created_at
string and the body array; a missing body leaves the zero value, an empty
slice. -/
def unmarshalResult : Json → Option Result
  | Json.obj fields => do
    let c ← asString (jsonLookup fields ("created_at"))
    let body ←
      match jsonLookup fields ("body") with
      | none => unmarshalTickers []
      | some (Json.arr l) => unmarshalTickers l
      | some _ => none
    pure ⟨c, body⟩
  | _ => none

/-- The side effects of one Handler run on its external collaborators: whether
the S3 download was attempted, which fetch goroutines were launched, whether
the S3 upload was attempted, the JSON artifact that ended up stored (none when
no successful write happened), whether the mail send was attempted, and the
error messages written to the log. -/
structure Effects where
  downloadAttempted : Bool
  launched : List Ticker
  uploadAttempted : Bool
  stored : Option Json
  mailAttempted : Bool
  logged : List String

/-- The run with no effect on any collaborator. -/
def noEffects : Effects := ⟨false, [], false, none, false, []⟩

/-- Outcomes of the external collaborators for one Handler run: the configured
secret (os.Getenv STOCK_API_KEY), the result of DownloadFile, the result of
the S3 upload inside UploadFile, the result of the SES send inside SenderMail,
and the formatted local date used for CreatedAt. -/
structure HandlerEnv where
  stockApiKey : String
  download : Except String (List Char)
  uploadErr : Option String
  mailErr : Option String
  today : String

/-- Go map indexing on the request headers: a missing key yields the zero
value, the empty string. -/
def headerLookup (headers : List (String × String)) (k : String) : String :=
  ((headers.find? (fun p => p.1 == k)).map (fun p => p.2)).getD ""

/-- Model of Handler (stockprofit.go lines 47-108).  The request is its header
list; arrival is the batch the fan-in loop collected, passed explicitly
because its order is decided by goroutine scheduling (coordinatorCompletes
says which arrivals are possible).  The result is the HTTP status code paired
with the effects on the collaborators: a wrong api key returns 400 before any
work; a download error returns 500; after the fan-in the Result is marshalled
(total in this model, as Go json.Marshal cannot fail on this struct) and
uploaded, an upload error returning 500 with nothing stored; finally the mail
is sent and a mail error is only logged, the response staying 200 with the
stored artifact as body. -/
def handler (env : HandlerEnv) (headers : List (String × String))
    (arrival : List Ticker) : Nat × Effects :=
  if headerLookup headers ("stock-api-key") ≠ env.stockApiKey then
    (400, noEffects)
  else
    match env.download with
    | Except.error _ => (500, ⟨true, [], false, none, false, []⟩)
    | Except.ok data =>
      let symbols := getTickerSymbles data
      let result : Result := ⟨env.today, arrival⟩
      let artifact := marshalResult result
      match env.uploadErr with
      | some _ => (500, ⟨true, symbols, true, none, false, []⟩)
      | none =>
        match env.mailErr with
        | some e => (200, ⟨true, symbols, true, some artifact, true, [e]⟩)
        | none => (200, ⟨true, symbols, true, some artifact, true, []⟩)

lemma parseFloat_two_point_five : parseFloat ['2', '.', '5'] = some (5 / 2 : ℚ) := by
  simp only [parseFloat]
  rw [if_neg (by decide), if_neg (by decide)]
  simp only [parseUnsigned]
  rw [show List.splitOn '.' ['2', '.', '5'] = [['2'], ['5']] from by decide]
  norm_num [digitsToNat]
  refine ⟨by decide, ?_⟩
  rw [show ('2'.toNat) = 50 from rfl, show ('5'.toNat) = 53 from rfl]
  norm_num

lemma foldl_earn (body : List Ticker) (a : ℚ) :
    body.foldl (fun s t => s + earn t) a = a + (body.map earn).sum := by
  induction body generalizing a with
  | nil => simp
  | cons t ts ih => simp [List.foldl_cons, ih, add_assoc]

/-- C4: for every batch the report aggregator of SenderMail computes per
position earn = (value - bid) * hold and totals the sum of earn over the body;
for the single position with symbol A, bid 10, fetched value 15 and quantity 5
it computes earn 25 and total 25, and for an empty batch the total is 0. -/
theorem senderMail_aggregation :
    (∀ t : Ticker, earn t = (t.value - t.bid) * (t.hold : ℚ))
    ∧ (∀ body : List Ticker, profitSum body = (body.map earn).sum)
    ∧ earn ⟨"A", 10, 15, 5⟩ = 25
    ∧ profitSum [⟨"A", 10, 15, 5⟩] = 25
    ∧ profitSum [] = 0 := by
  refine ⟨fun t => rfl, fun body => ?_, by norm_num [earn], by norm_num [profitSum, earn], rfl⟩
  rw [profitSum, foldl_earn, zero_add]

lemma unmarshal_marshal_ticker (t : Ticker) :
    unmarshalTicker (marshalTicker t) = some t := by
  simp [marshalTicker, unmarshalTicker, jsonLookup, asString, asQ, asInt, List.find?]

lemma unmarshal_marshal_tickers (l : List Ticker) :
    unmarshalTickers (l.map marshalTicker) = some l := by
  induction l with
  | nil => rfl
  | cons t ts ih => simp [unmarshalTickers, unmarshal_marshal_ticker, ih]

/-- C8: serializing a Batch (the Result struct) to JSON and deserializing it
back preserves every field value, and the serialized object uses exactly the
keys created_at and body at the top level and symble, bid, value, hold for
each position, keeping the misspelled key symble. -/
theorem json_roundTrip :
    (∀ res : Result, unmarshalResult (marshalResult res) = some res)
    ∧ (∀ res : Result, objKeys (marshalResult res) = ["created_at", "body"])
    ∧ (∀ t : Ticker, objKeys (marshalTicker t) = ["symble", "bid", "value", "hold"]) := by
  refine ⟨fun res => ?_, fun res => rfl, fun t => rfl⟩
  simp [marshalResult, unmarshalResult, jsonLookup, asString, List.find?,
    unmarshal_marshal_tickers]

lemma findIdx_line (line : List Char) (rest : List Char) (h : '\n' ∉ line) :
    (line ++ '\n' :: rest).findIdx? (· == '\n') = some line.length := by
  induction line with
  | nil => simp
  | cons c l ih =>
    have hc : c ≠ '\n' := fun hcn => h (hcn ▸ List.mem_cons_self c l)
    have hl : '\n' ∉ l := fun hm => h (List.mem_cons_of_mem c hm)
    simp only [List.cons_append, List.findIdx?_cons, List.findIdx?_succ]
    rw [if_neg (by simp [hc]), ih hl]
    simp

lemma scanLines_line (line rest : List Char) (h : '\n' ∉ line) :
    scanLines (line ++ '\n' :: rest) = (line.length + 1, dropCR line) := by
  rw [scanLines, findIdx_line line rest h]
  simp [List.take_left]

lemma scanLines_noNL (buf : List Char) (h : '\n' ∉ buf) :
    scanLines buf = (0, []) := by
  have hf : buf.findIdx? (· == '\n') = none := by
    rw [List.findIdx?_eq_none_iff]
    intro x hx
    exact beq_eq_false_iff_ne.mpr (fun hxn => h (hxn ▸ hx))
  rw [scanLines, hf]

lemma drop_past_line (line rest : List Char) :
    (line ++ '\n' :: rest).drop (line.length + 1) = rest := by
  have : line ++ '\n' :: rest = (line ++ ['\n']) ++ rest := by simp
  rw [this, List.drop_left' (by simp)]

lemma getTickerSymbles_noNL (buf : List Char) (h : '\n' ∉ buf) :
    getTickerSymbles buf = [] := by
  rw [getTickerSymbles]
  simp [scanLines_noNL buf h]

lemma getTickerSymbles_step (line rest : List Char) (h : '\n' ∉ line) :
    getTickerSymbles (line ++ '\n' :: rest)
      = parseTickerLine (dropCR line) ++ getTickerSymbles rest := by
  rw [getTickerSymbles]
  rw [dif_neg (by simp [scanLines_line line rest h])]
  simp [scanLines_line line rest h, drop_past_line]

/-- C5: the external-list parser skips every scanned line that does not split
on commas into exactly four fields; a four-field line always yields exactly
one Ticker, its numeric fields falling back to zero when their parse fails;
and each newline-terminated line contributes its tickers in source order.
Concretely, a three-field line yields nothing and a four-field line with a
non-numeric bid yields a Ticker with bid 0. -/
theorem getTickerSymbles_parsing :
    (∀ line rest : List Char, '\n' ∉ line →
        getTickerSymbles (line ++ '\n' :: rest)
          = parseTickerLine (dropCR line) ++ getTickerSymbles rest)
    ∧ (∀ tok : List Char, (tok.splitOn ',').length ≠ 4 → parseTickerLine tok = [])
    ∧ (∀ tok : List Char, (tok.splitOn ',').length = 4 → (parseTickerLine tok).length = 1)
    ∧ getTickerSymbles ("A,B,C\n".toList) = []
    ∧ getTickerSymbles ("XYZ,abc,2.5,7\n".toList) = [⟨"XYZ", 0, 5 / 2, 7⟩] := by
  refine ⟨getTickerSymbles_step, ?_, ?_, ?_, ?_⟩
  · intro tok h
    rcases hs : tok.splitOn ',' with - | ⟨a, - | ⟨b, - | ⟨c, - | ⟨d, - | ⟨e, tl⟩⟩⟩⟩⟩ <;>
      simp_all [parseTickerLine]
  · intro tok h
    rcases hs : tok.splitOn ',' with - | ⟨a, - | ⟨b, - | ⟨c, - | ⟨d, - | ⟨e, tl⟩⟩⟩⟩⟩ <;>
      simp_all [parseTickerLine]
  · have e : ("A,B,C\n".toList) = "A,B,C".toList ++ '\n' :: [] := by decide
    rw [e, getTickerSymbles_step _ _ (by decide), getTickerSymbles_noNL [] (by decide)]
    decide
  · have e : ("XYZ,abc,2.5,7\n".toList) = "XYZ,abc,2.5,7".toList ++ '\n' :: [] := by decide
    rw [e, getTickerSymbles_step _ _ (by decide), getTickerSymbles_noNL [] (by decide)]
    have hdrop : dropCR ("XYZ,abc,2.5,7".toList) = "XYZ,abc,2.5,7".toList := by decide
    have hsplit : ("XYZ,abc,2.5,7".toList).splitOn ','
        = ["XYZ".toList, "abc".toList, "2.5".toList, "7".toList] := by decide
    rw [hdrop]
    simp only [parseTickerLine, hsplit]
    have pf1 : parseFloat ['a', 'b', 'c'] = none := by decide
    have pa : atoi ['7'] = some 7 := by decide
    simp [pf1, parseFloat_two_point_five, pa]

theorem getTickerSymbles_parsing_witness :
    ('\n' ∉ ("A,1,2,3".toList))
    ∧ getTickerSymbles ("A,1,2,3".toList ++ '\n' :: [])
        = parseTickerLine (dropCR ("A,1,2,3".toList)) ++ getTickerSymbles [] :=
  ⟨by decide, getTickerSymbles_parsing.1 _ _ (by decide)⟩

/-- Concatenation of newline-terminated lines, describing exactly the buffers
whose every line the scanner can consume. -/
def joinLines : List (List Char) → List Char
  | [] => []
  | l :: ls => l ++ '\n' :: joinLines ls

/-- C10: a final line not terminated by a newline is dropped by
GetTickerSymbles, whatever the terminated lines before it were, because
bufio.ScanLines in not-at-EOF mode reports advance 0 on it and the loop
breaks; in particular a lone four-field line without a newline yields nothing
while the same line with a newline yields its Ticker. -/
theorem getTickerSymbles_dropsLastLine :
    (∀ (lines : List (List Char)) (last : List Char),
        (∀ l ∈ lines, '\n' ∉ l) → '\n' ∉ last →
        getTickerSymbles (joinLines lines ++ last) = getTickerSymbles (joinLines lines))
    ∧ getTickerSymbles ("A,1,2,3".toList) = []
    ∧ getTickerSymbles ("A,1,2,3\n".toList) = [⟨"A", 1, 2, 3⟩] := by
  refine ⟨?_, getTickerSymbles_noNL _ (by decide), ?_⟩
  · intro lines last
    induction lines with
    | nil =>
      intro _ hlast
      rw [joinLines, List.nil_append, getTickerSymbles_noNL last hlast,
        getTickerSymbles_noNL [] (by decide)]
    | cons l ls ih =>
      intro hl hlast
      have h1 : '\n' ∉ l := hl l (List.mem_cons_self l ls)
      have h2 : ∀ x ∈ ls, '\n' ∉ x := fun x hx => hl x (List.mem_cons_of_mem l hx)
      have e1 : joinLines (l :: ls) ++ last = l ++ '\n' :: (joinLines ls ++ last) := by
        simp [joinLines]
      rw [e1, getTickerSymbles_step _ _ h1, ih h2 hlast, joinLines,
        getTickerSymbles_step _ _ h1]
  · have e : ("A,1,2,3\n".toList) = "A,1,2,3".toList ++ '\n' :: [] := by decide
    rw [e, getTickerSymbles_step _ _ (by decide), getTickerSymbles_noNL [] (by decide)]
    decide

theorem getTickerSymbles_dropsLastLine_witness :
    (∀ l ∈ [("A,1,2,3".toList)], '\n' ∉ l)
    ∧ ('\n' ∉ ("B,4,5,6".toList))
    ∧ getTickerSymbles (joinLines [("A,1,2,3".toList)] ++ ("B,4,5,6".toList))
        = getTickerSymbles (joinLines [("A,1,2,3".toList)]) :=
  ⟨by decide, by decide, getTickerSymbles_dropsLastLine.1 _ _ (by decide) (by decide)⟩

/-- C2: of the five claimed failure modes of GetStockPrice, the four the code
handles (network error, non-success status, markup parse failure, non-numeric
capture) each send the Position with every field at its zero value; the fifth,
a missing regular-expression match, does not: the response is fine but the
match list is empty, the unguarded indexing result[0][1] panics, and nothing
is sent, contradicting the claimed failure policy. -/
theorem getStockPrice_failureModes :
    getStockPrice ⟨"AMD", 10, 0, 2⟩ FetchOutcome.netError = some zeroTicker
    ∧ getStockPrice ⟨"AMD", 10, 0, 2⟩
        (FetchOutcome.response 500 (some ("trend2W10W9M1.5".toList))) = some zeroTicker
    ∧ getStockPrice ⟨"AMD", 10, 0, 2⟩ (FetchOutcome.response 200 none) = some zeroTicker
    ∧ getStockPrice ⟨"AMD", 10, 0, 2⟩
        (FetchOutcome.response 200 (some ("trend2W10W9M12x34".toList))) = some zeroTicker
    ∧ getStockPrice ⟨"AMD", 10, 0, 2⟩
        (FetchOutcome.response 200 (some ("hello".toList))) = none :=
  ⟨rfl, rfl, rfl, rfl, rfl⟩

/-- C9: there is a fetch outcome with success status and parseable markup
whose header text matches the pattern nowhere; for it the match list is empty,
so the unguarded indexing result[0][1] of GetStockPrice is out of bounds: the
function sends neither a zero-value Position nor anything else, and a
coordinator waiting for one result per symbol can never complete. -/
theorem getStockPrice_noMatch_neverSends :
    findAllSubmatch (("hello".toList).filter (fun c => c ≠ ',')) = []
    ∧ (∀ sym : Ticker,
        getStockPrice sym (FetchOutcome.response 200 (some ("hello".toList))) = none)
    ∧ (∀ sym : Ticker,
        ¬ ∃ batch, coordinatorCompletes [sym]
          (fun _ => FetchOutcome.response 200 (some ("hello".toList))) batch) := by
  refine ⟨by decide, fun sym => rfl, fun sym => ?_⟩
  rintro ⟨batch, hall, -⟩
  have h := hall sym (List.mem_cons_self sym [])
  have he : getStockPrice sym (FetchOutcome.response 200 (some ("hello".toList))) = none := rfl
  rw [he] at h
  simp at h

/-- C1 (amended): whenever the fan-in loop can complete, that is whenever
every launched fetch actually sends a message, the collected batch has exactly
as many Positions as there are input symbols, one per launched fetch, and for
an empty input it is empty.  Unconditional completion fails on the code: see
the counterexample, where one fetch hits the missing-match panic and no batch
is ever collected. -/
theorem coordinator_batch_size (symbols : List Ticker) (fetch : Ticker → FetchOutcome)
    (batch : List Ticker) (h : coordinatorCompletes symbols fetch batch) :
    batch.length = symbols.length ∧ (symbols = [] → batch = []) := by
  obtain ⟨hall, hperm⟩ := h
  constructor
  · have hlen : ((symbols.map (fun t => getStockPrice t (fetch t))).reduceOption).length
        = (symbols.map (fun t => getStockPrice t (fetch t))).length := by
      rw [List.reduceOption_length_eq_iff]
      intro x hx
      obtain ⟨t, ht, rfl⟩ := List.mem_map.mp hx
      exact hall t ht
    rw [hperm.length_eq, hlen, List.length_map]
  · rintro rfl
    simpa using hperm

theorem coordinator_batch_size_counterexample :
    ¬ ∃ batch, coordinatorCompletes [⟨"AMD", 10, 0, 2⟩]
      (fun _ => FetchOutcome.response 200 (some ("nomatch".toList))) batch := by
  rintro ⟨batch, hall, -⟩
  have h := hall ⟨"AMD", 10, 0, 2⟩ (List.mem_cons_self _ _)
  have he : getStockPrice ⟨"AMD", 10, 0, 2⟩
      (FetchOutcome.response 200 (some ("nomatch".toList))) = none := rfl
  rw [he] at h
  simp at h

theorem coordinator_batch_size_witness :
    coordinatorCompletes [⟨"AMD", 10, 0, 2⟩] (fun _ => FetchOutcome.netError) [zeroTicker]
    ∧ ([zeroTicker] : List Ticker).length = 1 := by
  have hcc : coordinatorCompletes [⟨"AMD", 10, 0, 2⟩]
      (fun _ => FetchOutcome.netError) [zeroTicker] :=
    ⟨fun t ht => rfl, List.Perm.refl _⟩
  exact ⟨hcc, (coordinator_batch_size _ _ _ hcc).1⟩

/-- C7: on a successful fetch, the Position GetStockPrice sends back is the
input Position with only its value field changed, set to the parsed price:
symbol, bid and hold are passed through unchanged. -/
theorem getStockPrice_success_frame (sym : Ticker) (text m0 cap : List Char)
    (caps : List (List Char)) (ms : List (List (List Char))) (f : ℚ)
    (hfind : findAllSubmatch (text.filter (fun c => c ≠ ',')) = (m0 :: cap :: caps) :: ms)
    (hparse : parseFloat cap = some f) :
    getStockPrice sym (FetchOutcome.response 200 (some text))
      = some ⟨sym.symble, sym.bid, f, sym.hold⟩ := by
  simp only [getStockPrice]
  rw [if_neg (by decide), hfind]
  simp [hparse]

theorem getStockPrice_success_frame_witness :
    findAllSubmatch (("trend2W10W9M150".toList).filter (fun c => c ≠ ','))
      = [["trend2W10W9M150".toList, "150".toList]]
    ∧ parseFloat ("150".toList) = some (150 : ℚ)
    ∧ getStockPrice ⟨"AMD", 10, 0, 2⟩
        (FetchOutcome.response 200 (some ("trend2W10W9M150".toList)))
        = some ⟨"AMD", 10, 150, 2⟩ :=
  ⟨by decide, by decide,
    getStockPrice_success_frame ⟨"AMD", 10, 0, 2⟩ ("trend2W10W9M150".toList)
      ("trend2W10W9M150".toList) ("150".toList) [] [] 150 (by decide) (by decide)⟩

/-- C3: a request whose stock-api-key header differs from the configured
secret is rejected with the client-error status 400 before any work happens:
no download, no fetch goroutine, no upload, nothing stored, no mail, no log
line — every external collaborator is untouched. -/
theorem handler_auth_gate (env : HandlerEnv) (headers : List (String × String))
    (arrival : List Ticker)
    (hauth : headerLookup headers ("stock-api-key") ≠ env.stockApiKey) :
    handler env headers arrival = (400, noEffects) := by
  simp only [handler]
  rw [if_pos hauth]

theorem handler_auth_gate_witness :
    (headerLookup [] ("stock-api-key") ≠ "secret")
    ∧ handler ⟨"secret", Except.ok [], none, none, "2021-03-01"⟩ [] [] = (400, noEffects) :=
  ⟨by decide,
    handler_auth_gate ⟨"secret", Except.ok [], none, none, "2021-03-01"⟩ [] [] (by decide)⟩

/-- C6: once the request is authenticated and the download succeeded, a
failing S3 upload is fatal: the handler returns the server-error status 500
and nothing is stored; a failing mail send is not: whatever the mail outcome,
the handler returns 200 with the marshalled batch stored as the kept
artifact and the mail attempted. -/
theorem handler_storage_vs_mail (env : HandlerEnv) (headers : List (String × String))
    (arrival : List Ticker) (data : List Char)
    (hauth : headerLookup headers ("stock-api-key") = env.stockApiKey)
    (hdl : env.download = Except.ok data) :
    (∀ e, env.uploadErr = some e →
        handler env headers arrival
          = (500, ⟨true, getTickerSymbles data, true, none, false, []⟩))
    ∧ (env.uploadErr = none →
        (handler env headers arrival).1 = 200
        ∧ (handler env headers arrival).2.stored = some (marshalResult ⟨env.today, arrival⟩)
        ∧ (handler env headers arrival).2.mailAttempted = true) := by
  constructor
  · intro e he
    simp only [handler]
    rw [if_neg (not_not_intro hauth), hdl, he]
  · intro hnone
    simp only [handler]
    rw [if_neg (not_not_intro hauth), hdl, hnone]
    cases hm : env.mailErr <;> exact ⟨rfl, rfl, rfl⟩

theorem handler_storage_vs_mail_witness :
    (headerLookup [("stock-api-key", "k")] ("stock-api-key") = "k")
    ∧ ((⟨"k", Except.ok [], some "boom", none, "2021-03-01"⟩ : HandlerEnv).download
        = Except.ok [])
    ∧ handler ⟨"k", Except.ok [], some "boom", none, "2021-03-01"⟩
        [("stock-api-key", "k")] []
        = (500, ⟨true, getTickerSymbles [], true, none, false, []⟩) :=
  ⟨by decide, rfl,
    (handler_storage_vs_mail ⟨"k", Except.ok [], some "boom", none, "2021-03-01"⟩
      [("stock-api-key", "k")] [] [] (by decide) rfl).1 "boom" rfl⟩

end StockProfit
